import Mathlib

/-!
Verification development for deep_crawler.py, a command line wrapper that
crawls a site with an external library, saves the discovered URLs to a JSON
file, and shells out to an external converter once per URL.  The definitions
below are a shallow embedding of the scripts own logic: Python strings are
embedded as Lean String or List Char, the json module serialization used by
save_results and the json.load call of process_urls are embedded as explicit
functions on character lists, and the per URL subprocess loop is embedded as
a fold that records the trace of invocations together with the two counters.
-/

/-! ## Python string primitives -/

/-- The left and right brace characters, named so that JSON text below can be
assembled without brace literals inside strings. -/
def lbrace : Char := Char.ofNat 123

/-- Right brace character. -/
def rbrace : Char := Char.ofNat 125

/-- Embedding of the Python expression s.strip(c) for a one character strip
set: removes every copy of the character from both ends. -/
def pyStripChar (sep : Char) (cs : List Char) : List Char :=
  ((cs.dropWhile (fun c => c = sep)).reverse.dropWhile (fun c => c = sep)).reverse

/-- Embedding of the Python expression s.split(c): splits at every occurrence
of the separator, keeping empty groups, so the result is always nonempty. -/
def pySplitChar (sep : Char) : List Char → List (List Char)
  | [] => [[]]
  | c :: cs =>
    match pySplitChar sep cs with
    | [] => [[c]]
    | g :: gs => if c = sep then [] :: g :: gs else (c :: g) :: gs

/-- Embedding of Python s.replace(a, b) for one character arguments, where
substring replacement coincides with a character map. -/
def pyReplaceChar (a b : Char) (cs : List Char) : List Char :=
  cs.map (fun c => if c = a then b else c)

/-- Fueled worker for substring replacement; every step consumes at least one
character when the pattern is nonempty, so fuel equal to the input length is
enough. -/
def pyReplaceSubAux (pat rep : List Char) : Nat → List Char → List Char
  | 0, s => s
  | _ + 1, [] => []
  | fuel + 1, c :: rest =>
    if pat ≠ [] ∧ pat.isPrefixOf (c :: rest) then
      rep ++ pyReplaceSubAux pat rep fuel ((c :: rest).drop pat.length)
    else
      c :: pyReplaceSubAux pat rep fuel rest

/-- Embedding of Python s.replace(pat, rep) for a nonempty pattern: replaces
every non overlapping occurrence, scanning left to right. -/
def pyReplaceSub (s pat rep : List Char) : List Char :=
  pyReplaceSubAux pat rep s.length s

/-! ## A model of urllib.parse.urlparse

Restricted to what the script relies on: scheme recognition, netloc
extraction after a double slash, and the query and fragment cut.  The
splitting of trailing semicolon parameters, an urlparse feature that never
fires on the URLs handled here, is not modelled. -/

/-- Split at the first occurrence of the separator; the second component is
none when the separator does not occur. -/
def splitFirst (sep : Char) : List Char → List Char × Option (List Char)
  | [] => ([], none)
  | c :: rest =>
    if c = sep then ([], some rest)
    else
      let p := splitFirst sep rest
      (c :: p.1, p.2)

/-- Characters allowed in a URL scheme. -/
def isSchemeChar (c : Char) : Bool :=
  c.isAlphanum || c = '+' || c = '-' || c = '.'

/-- The parsed components of a URL, mirroring the attributes of the result of
urllib.parse.urlparse that the script reads. -/
structure UrlParts where
  scheme : String
  netloc : String
  path : String
  query : String
  fragment : String
deriving DecidableEq, Repr

/-- Model of urllib.parse.urlparse: recognise a scheme before the first
colon when it is wellformed, take the netloc after a double slash up to the
first slash, question mark or hash, then split off fragment and query. -/
def urlparseModel (url : String) : UrlParts :=
  let cs := url.data
  let schemeSplit :=
    match splitFirst ':' cs with
    | (before, some after) =>
      if before ≠ [] ∧ (before.headD 'a').isAlpha = true ∧ before.all isSchemeChar then
        (before.map Char.toLower, after)
      else ([], cs)
    | (_, none) => ([], cs)
  let netlocSplit :=
    match schemeSplit.2 with
    | '/' :: '/' :: r =>
      let n := r.takeWhile (fun c => !(c = '/' || c = '?' || c = '#'))
      (n, r.drop n.length)
    | other => ([], other)
  let fragSplit := splitFirst '#' netlocSplit.2
  let querySplit := splitFirst '?' fragSplit.1
  ⟨⟨schemeSplit.1⟩, ⟨netlocSplit.1⟩, ⟨querySplit.1⟩,
    ⟨(querySplit.2).getD []⟩, ⟨(fragSplit.2).getD []⟩⟩

/-! ## Filename slug and domain derivation from process_urls -/

/-- Embedding of the slug computation of process_urls: strip slashes from the
ends of the parsed path, replace the remaining slashes by underscores or fall
back to the word index when nothing is left, then keep the part before the
first dot, exactly as the subscript zero of the Python split does. -/
def slugOfPath (path : String) : List Char :=
  let p := pyStripChar '/' path.data
  let slug := if p = [] then "index".data else pyReplaceChar '/' '_' p
  (pySplitChar '.' slug).headD []

/-- The markdown output filename derived from a parsed URL path. -/
def filenameOfPath (path : String) : String :=
  ⟨slugOfPath path ++ ".md".data⟩

/-- The markdown output filename derived from a URL, through the urlparse
model. -/
def filenameOfUrl (url : String) : String :=
  filenameOfPath (urlparseModel url).path

/-- Embedding of the domain derivation of process_urls: every occurrence of
the four character pattern www dot is replaced by nothing, then everything
from the first colon on is dropped. -/
def domainOfNetloc (netloc : String) : String :=
  ⟨(pySplitChar ':' (pyReplaceSub netloc.data "www.".data [])).headD []⟩

/-- Domain of a URL, through the urlparse model. -/
def domainOfUrl (url : String) : String :=
  domainOfNetloc (urlparseModel url).netloc

example : (urlparseModel "https://www.example.com:8080/a/b.html?q=1#f").netloc
    = "www.example.com:8080" := by decide

example : (urlparseModel "https://www.example.com:8080/a/b.html?q=1#f").path
    = "/a/b.html" := by decide

example : (urlparseModel "foo").netloc = "" := by decide

example : domainOfUrl "https://www.example.com:8080/a" = "example.com" := by decide

example : filenameOfUrl "https://example.com/guides/v1.2/intro.html"
    = "guides_v1.md" := by decide

example : filenameOfUrl "https://example.com" = "index.md" := by decide

example : filenameOfUrl "https://example.com/" = "index.md" := by decide

/-! ## Result records and the run_crawler post processing -/

/-- A result record as built by run_crawler and persisted by save_results:
exactly the three fields url, depth and title. -/
structure Rec where
  url : String
  depth : Int
  title : String
deriving DecidableEq, Repr

/-- A raw crawl result as returned by the external crawler: a url together
with the optional depth and title entries of its metadata dictionary. -/
structure CrawlResult where
  url : String
  metaDepth : Option Int
  metaTitle : Option String
deriving DecidableEq, Repr

/-- Embedding of the post processing loop of run_crawler: one record per
crawl result, depth defaulting to zero and title defaulting to the empty
string when the metadata lacks them. -/
def processCrawlResults (rs : List CrawlResult) : List Rec :=
  rs.map (fun r => ⟨r.url, r.metaDepth.getD 0, r.metaTitle.getD ""⟩)

/-! ## The processing loop of process_urls -/

/-- Outcome of one subprocess.run call on the crwl command: normal exit,
the CalledProcessError raised by check equal true, or any other exception
derived from Exception. -/
inductive RunOutcome where
  | ok
  | calledProcessError
  | otherError
deriving DecidableEq, Repr

/-- One recorded invocation of the external converter. -/
structure Invocation where
  url : String
  outputFormat : String
  outputPath : List String
deriving DecidableEq, Repr

/-- The print sites inside the processing loop, one constructor per print
call of the loop body. -/
inductive LoopEvent where
  | processing (pos total : Nat) (url : String)
  | created (path : List String)
  | errorProcessing (url : String)
  | unexpectedError
deriving DecidableEq, Repr

/-- The rendered command line of an invocation, mirroring the list passed to
subprocess.run. -/
def Invocation.cmd (inv : Invocation) : List String :=
  ["crwl", "crawl", inv.url, "-o", inv.outputFormat, "-O",
    String.intercalate "/" inv.outputPath]

/-- State carried through the loop of process_urls: the trace of subprocess
invocations issued so far, in order, the two counters, and the print events
of the loop body. -/
structure LoopState where
  invocations : List Invocation
  processed : Nat
  errors : Nat
  events : List LoopEvent
deriving DecidableEq, Repr

/-- The invocation the loop issues for one record. -/
def invOf (fmt : String) (outDir : List String) (r : Rec) : Invocation :=
  ⟨r.url, fmt, outDir ++ [filenameOfUrl r.url]⟩

/-- The print events of one pass of the loop body: the progress line, then
the line selected by the outcome of the subprocess call. -/
def stepEvents (fmt : String) (outDir : List String) (total : Nat) (i : Nat)
    (outcome : RunOutcome) (r : Rec) : List LoopEvent :=
  LoopEvent.processing (i + 1) total r.url ::
    (match outcome with
     | RunOutcome.ok => [LoopEvent.created (invOf fmt outDir r).outputPath]
     | RunOutcome.calledProcessError => [LoopEvent.errorProcessing r.url]
     | RunOutcome.otherError => [LoopEvent.unexpectedError])

/-- The loop body of process_urls for one record: derive the filename from
the url of the record, issue the subprocess invocation, and bump the counter
selected by the outcome.  The outcome oracle is indexed by the position of
the record, since one subprocess call is issued per position. -/
def stepRecord (fmt : String) (outDir : List String) (total : Nat) (i : Nat)
    (outcome : RunOutcome) (st : LoopState) (r : Rec) : LoopState :=
  { invocations := st.invocations ++ [invOf fmt outDir r]
    processed := if outcome = RunOutcome.ok then st.processed + 1 else st.processed
    errors := if outcome = RunOutcome.ok then st.errors else st.errors + 1
    events := st.events ++ stepEvents fmt outDir total i outcome r }

/-- The enumerated loop of process_urls, starting at index i with state st. -/
def processLoop (fmt : String) (outDir : List String) (total : Nat)
    (oracle : Nat → RunOutcome) : Nat → List Rec → LoopState → LoopState
  | _, [], st => st
  | i, r :: rs, st =>
    processLoop fmt outDir total oracle (i + 1) rs
      (stepRecord fmt outDir total i (oracle i) st r)

/-- Embedding of the domain selection of process_urls: the domain of the
source url when the source url is truthy and yields a nonempty domain,
otherwise the domain of the first result when there is one, otherwise the
empty string, which stands for the Python value None since both are falsy
and are used only in truth tests. -/
def computeDomain (sourceUrl : Option String) (results : List Rec) : String :=
  let d :=
    match sourceUrl with
    | some su => if su = "" then "" else domainOfUrl su
    | none => ""
  if d = "" then
    match results with
    | r :: _ => domainOfUrl r.url
    | [] => ""
  else d

/-- Everything observable about one run of process_urls on an already loaded
results list: the output directory, the directories created, the invocation
trace, the counters, and the summary line printed at the end. -/
structure ProcessResult where
  outputDir : List String
  created : List (List String)
  invocations : List Invocation
  processed : Nat
  errors : Nat
  events : List LoopEvent
  summary : String
deriving DecidableEq, Repr

/-- Embedding of process_urls after the json.load call: compute the domain
based output directory, create it, then run the enumerated loop over the
results and print the summary built from the two counters. -/
def processUrls (sourceUrl : Option String) (fmt : String)
    (markdownDir : String) (oracle : Nat → RunOutcome)
    (results : List Rec) : ProcessResult :=
  let domain := computeDomain sourceUrl results
  let outDir := if domain = "" then [markdownDir] else [markdownDir, domain]
  let st := processLoop fmt outDir results.length oracle 0 results ⟨[], 0, 0, []⟩
  { outputDir := outDir
    created := [outDir]
    invocations := st.invocations
    processed := st.processed
    errors := st.errors
    events := st.events
    summary := "\nProcessing complete: " ++ toString st.processed
      ++ " created, " ++ toString st.errors ++ " errors" }

/-- The number of ok outcomes the oracle yields on the n positions starting
at i. -/
def okCount (oracle : Nat → RunOutcome) : Nat → Nat → Nat
  | _, 0 => 0
  | i, n + 1 => (if oracle i = RunOutcome.ok then 1 else 0) + okCount oracle (i + 1) n

/-- The number of failing outcomes the oracle yields on the n positions
starting at i. -/
def errCount (oracle : Nat → RunOutcome) : Nat → Nat → Nat
  | _, 0 => 0
  | i, n + 1 => (if oracle i = RunOutcome.ok then 0 else 1) + errCount oracle (i + 1) n

/-- The full event list of the loop on a record list starting at index i. -/
def eventsOf (fmt : String) (outDir : List String) (total : Nat)
    (oracle : Nat → RunOutcome) : Nat → List Rec → List LoopEvent
  | _, [] => []
  | i, r :: rs =>
    stepEvents fmt outDir total i (oracle i) r ++
      eventsOf fmt outDir total oracle (i + 1) rs

/-- The default markdown directory of the script. -/
def defaultMarkdownDir : String := "markdown_output"

/-! ## The json module: serialization as in save_results

save_results calls json.dump with indent two and ensure_ascii false, and
process_urls reads the file back with json.load.  The value fragment that
save_results ever writes is an array of flat objects whose values are
strings and integers; the embedding below covers exactly that fragment of
the JSON grammar, leaving out floats and the three keyword literals, which
the script never produces. -/

/-- Lowercase hexadecimal digit for a value below sixteen. -/
def hexDigitChar (n : Nat) : Char :=
  if n < 10 then Char.ofNat (48 + n) else Char.ofNat (87 + n)

/-- Decimal digit character. -/
def digitChar (n : Nat) : Char := Char.ofNat (48 + n)

/-- Escaping of one character as json.dump with ensure_ascii false performs
it: the two character escapes for quote, backslash and the five named
control characters, a four digit unicode escape for the other control
characters, and the character itself otherwise. -/
def escapeChar (c : Char) : List Char :=
  if c = '"' then ['\\', '"']
  else if c = '\\' then ['\\', '\\']
  else if c = '\n' then ['\\', 'n']
  else if c = '\r' then ['\\', 'r']
  else if c = '\t' then ['\\', 't']
  else if c = Char.ofNat 8 then ['\\', 'b']
  else if c = Char.ofNat 12 then ['\\', 'f']
  else if c.toNat < 32 then
    ['\\', 'u', '0', '0', hexDigitChar (c.toNat / 16), hexDigitChar (c.toNat % 16)]
  else [c]

/-- Escaping of a whole string. -/
def escapeString (cs : List Char) : List Char :=
  (cs.map escapeChar).flatten

/-- A serialized JSON string: quote, escaped body, quote. -/
def dumpString (cs : List Char) : List Char :=
  '"' :: (escapeString cs ++ ['"'])

/-- Decimal digits of a natural number, most significant first. -/
def natDigits (n : Nat) : List Char :=
  if _h : n < 10 then [digitChar n]
  else natDigits (n / 10) ++ [digitChar (n % 10)]
decreasing_by exact Nat.div_lt_self (by omega) (by omega)

/-- A serialized integer, as the Python str of an int renders it. -/
def dumpInt (i : Int) : List Char :=
  if i < 0 then '-' :: natDigits i.natAbs else natDigits i.natAbs

/-- The JSON value fragment handled by the script. -/
inductive Json where
  | str : List Char → Json
  | int : Int → Json
  | arr : List Json → Json
  | obj : List (List Char × Json) → Json
deriving Repr

/-- The three keys of a result record, as character lists. -/
def kUrl : List Char := ['u', 'r', 'l']

/-- The depth key. -/
def kDepth : List Char := ['d', 'e', 'p', 't', 'h']

/-- The title key. -/
def kTitle : List Char := ['t', 'i', 't', 'l', 'e']

/-- The JSON object a result record serializes to. -/
def recToJson (r : Rec) : Json :=
  Json.obj
    [(kUrl, Json.str r.url.data),
     (kDepth, Json.int r.depth),
     (kTitle, Json.str r.title.data)]

/-- One serialized object member at nesting level two: newline, four spaces
of indent, the quoted key, colon, space and the serialized value. -/
def objMember (key : List Char) (v : List Char) : List Char :=
  '\n' :: ' ' :: ' ' :: ' ' :: ' ' :: (dumpString key ++ ':' :: ' ' :: v)

/-- The serialized object of one result record, at nesting level one, as
json.dump with indent two renders it. -/
def dumpRecObj (r : Rec) : List Char :=
  lbrace ::
    (objMember kUrl (dumpString r.url.data) ++
      ',' :: objMember kDepth (dumpInt r.depth) ++
      ',' :: objMember kTitle (dumpString r.title.data) ++
      ('\n' :: ' ' :: ' ' :: [rbrace]))

/-- The serialized items after the first one: comma, newline, two spaces of
indent, next object. -/
def dumpItemsTail : List Rec → List Char
  | [] => []
  | r :: rs => ',' :: '\n' :: ' ' :: ' ' :: (dumpRecObj r ++ dumpItemsTail rs)

/-- The full serialized array written by save_results via json.dump with
indent two and ensure_ascii false. -/
def dumpRecords : List Rec → List Char
  | [] => ['[', ']']
  | r :: rs => '[' :: '\n' :: ' ' :: ' ' :: (dumpRecObj r ++ dumpItemsTail rs ++ ['\n', ']'])

/-- The exact file content written by save_results for a results list. -/
def saveResultsContent (rs : List Rec) : String :=
  ⟨dumpRecords rs⟩

/-! ## The json module: parsing as in json.load -/

/-- The whitespace characters the json parser skips. -/
def isJsonWs (c : Char) : Bool :=
  c = ' ' || c = '\t' || c = '\n' || c = '\r'

/-- Skip leading JSON whitespace. -/
def skipWs : List Char → List Char
  | [] => []
  | c :: rest => if isJsonWs c then skipWs rest else c :: rest

/-- Value of a hexadecimal digit, letters of either case accepted. -/
def hexVal (c : Char) : Option Nat :=
  if c.isDigit then some (c.toNat - 48)
  else if 'a' ≤ c ∧ c ≤ 'f' then some (c.toNat - 87)
  else if 'A' ≤ c ∧ c ≤ 'F' then some (c.toNat - 55)
  else none

/-- The character named by a two character escape. -/
def unescapeChar (c : Char) : Option Char :=
  if c = '"' then some '"'
  else if c = '\\' then some '\\'
  else if c = '/' then some '/'
  else if c = 'b' then some (Char.ofNat 8)
  else if c = 'f' then some (Char.ofNat 12)
  else if c = 'n' then some '\n'
  else if c = 'r' then some '\r'
  else if c = 't' then some '\t'
  else none

/-- Parse the body of a JSON string after the opening quote, returning the
decoded characters and the input after the closing quote.  As in the strict
mode of json.load, a bare control character is an error.  A four digit
unicode escape decodes through Char.ofNat, which agrees with json.load on
every escape the serializer emits; the surrogate pair combination of
json.load, never exercised by serialized output, is not modelled. -/
def parseStringBody : List Char → Option (List Char × List Char)
  | [] => none
  | c :: rest =>
    if c = '"' then some ([], rest)
    else if c = '\\' then
      match rest with
      | 'u' :: h1 :: h2 :: h3 :: h4 :: rest2 =>
        match hexVal h1, hexVal h2, hexVal h3, hexVal h4 with
        | some a, some b, some c3, some d =>
          match parseStringBody rest2 with
          | some (cs, r) =>
            some (Char.ofNat (((a * 16 + b) * 16 + c3) * 16 + d) :: cs, r)
          | none => none
        | _, _, _, _ => none
      | e :: rest2 =>
        match unescapeChar e with
        | some c2 =>
          match parseStringBody rest2 with
          | some (cs, r) => some (c2 :: cs, r)
          | none => none
        | none => none
      | [] => none
    else if c.toNat < 32 then none
    else
      match parseStringBody rest with
      | some (cs, r) => some (c :: cs, r)
      | none => none

/-- Accumulating decimal number scanner. -/
def parseDigitsAux (acc : Nat) : List Char → Nat × List Char
  | [] => (acc, [])
  | c :: rest =>
    if c.isDigit then parseDigitsAux (acc * 10 + (c.toNat - 48)) rest
    else (acc, c :: rest)

/-- Parse an integer token: an optional minus sign followed by at least one
digit.  The fraction and exponent continuations of the json number grammar,
never produced by the serializer here, are not modelled. -/
def parseIntTok : List Char → Option (Int × List Char)
  | [] => none
  | c :: rest =>
    if c = '-' then
      match rest with
      | c2 :: _ =>
        if c2.isDigit then
          let p := parseDigitsAux 0 rest
          some (-(p.1 : Int), p.2)
        else none
      | [] => none
    else if c.isDigit then
      let p := parseDigitsAux 0 (c :: rest)
      some ((p.1 : Int), p.2)
    else none

mutual

/-- Fueled recursive descent value parser modelling json.load on the
fragment the script writes: strings, integers, arrays and objects. -/
def parseValue : Nat → List Char → Option (Json × List Char)
  | 0, _ => none
  | fuel + 1, s =>
    match skipWs s with
    | [] => none
    | c :: rest =>
      if c = '"' then
        match parseStringBody rest with
        | some (cs, r) => some (Json.str cs, r)
        | none => none
      else if c = '[' then
        match skipWs rest with
        | [] => none
        | d :: r1 =>
          if d = ']' then some (Json.arr [], r1)
          else
            match parseValue fuel (d :: r1) with
            | some (v, r2) =>
              match parseArrTail fuel r2 with
              | some (vs, r3) => some (Json.arr (v :: vs), r3)
              | none => none
            | none => none
      else if c = lbrace then
        match skipWs rest with
        | [] => none
        | x :: r2 =>
          if x = rbrace then some (Json.obj [], r2)
          else
            match parseMember fuel (x :: r2) with
            | some (kv, r3) =>
              match parseObjTail fuel r3 with
              | some (kvs, r4) => some (Json.obj (kv :: kvs), r4)
              | none => none
            | none => none
      else
        match parseIntTok (c :: rest) with
        | some (i, r) => some (Json.int i, r)
        | none => none

/-- Parse one object member: quoted key, colon, value. -/
def parseMember : Nat → List Char → Option ((List Char × Json) × List Char)
  | 0, _ => none
  | fuel + 1, s =>
    match skipWs s with
    | [] => none
    | c :: rest =>
      if c = '"' then
        match parseStringBody rest with
        | some (key, r1) =>
          match skipWs r1 with
          | c2 :: r2 =>
            if c2 = ':' then
              match parseValue fuel r2 with
              | some (v, r3) => some ((key, v), r3)
              | none => none
            else none
          | [] => none
        | none => none
      else none

/-- Parse the continuation of an array after one value: either the closing
bracket or a comma and another value. -/
def parseArrTail : Nat → List Char → Option (List Json × List Char)
  | 0, _ => none
  | fuel + 1, s =>
    match skipWs s with
    | [] => none
    | c :: rest =>
      if c = ']' then some ([], rest)
      else if c = ',' then
        match parseValue fuel rest with
        | some (v, r1) =>
          match parseArrTail fuel r1 with
          | some (vs, r2) => some (v :: vs, r2)
          | none => none
        | none => none
      else none

/-- Parse the continuation of an object after one member: either the closing
brace or a comma and another member. -/
def parseObjTail : Nat → List Char → Option (List (List Char × Json) × List Char)
  | 0, _ => none
  | fuel + 1, s =>
    match skipWs s with
    | [] => none
    | c :: rest =>
      if c = rbrace then some ([], rest)
      else if c = ',' then
        match parseMember fuel rest with
        | some (kv, r1) =>
          match parseObjTail fuel r1 with
          | some (kvs, r2) => some (kv :: kvs, r2)
          | none => none
        | none => none
      else none

end

/-- Embedding of json.load on a file content: parse one value with enough
fuel, then require that only whitespace remains, as the extra data check of
json.loads does. -/
def jsonLoad (s : List Char) : Option Json :=
  match parseValue (s.length + 1) s with
  | some (v, rest) => if skipWs rest = [] then some v else none
  | none => none

/-! ## The control flow of main

The model covers main from the point where arguments are settled, which is
where the claims about error handling apply: the two try blocks around the
processing call and around the crawl plus save plus process sequence.  Each
print site of main is represented by one event constructor, so that the
model does not have to render the absolute path that save_results prints.
The crawl step argument stands for the combined outcome of run_crawler and
save_results, which sit in the same try block; the process step argument
stands for the outcome of process_urls. -/

/-- The three operation modes of the script. -/
inductive Mode where
  | crawl
  | process
  | both
deriving DecidableEq, Repr

/-- One print site of main, in source order. -/
inductive MainEvent where
  | processingExisting (file : String)
  | resultsFileNotFound (file : String)
  | errorDuringProcessing (msg : String)
  | processingCompleted
  | urlRequired
  | startingCrawl (url : String)
  | crawlParams (maxDepth maxPages : Int)
  | crawledPages (n : Nat)
  | resultsSaved (file : String)
  | processingToFormat (fmt : String)
  | processCompleted
deriving DecidableEq, Repr

/-- The observable outcome of one run of main: whether an exception escaped,
the process exit code, and the print events in order. -/
structure MainResult where
  raised : Bool
  exitCode : Nat
  printed : List MainEvent
deriving DecidableEq, Repr

/-- Truthiness of the url argument, as the Python not operator sees it. -/
def urlTruthy (urlArg : Option String) : Bool :=
  match urlArg with
  | some u => u ≠ ""
  | none => false

/-- Embedding of main after argument handling.  The crawl step value is the
outcome of the guarded block of the crawl branch up to and including
save_results: either an exception message or the results list; the process
step value is the exception message of process_urls when it raises. -/
def mainModel (mode : Mode) (urlArg : Option String) (resultsFile : String)
    (resultsFileExists : Bool) (maxDepth maxPages : Int) (outputFmt : String)
    (crawlStep : Except String (List Rec)) (processStep : Option String) :
    MainResult :=
  match mode with
  | Mode.process =>
    let p0 := [MainEvent.processingExisting resultsFile]
    if resultsFileExists = false then
      ⟨false, 0, p0 ++ [MainEvent.resultsFileNotFound resultsFile]⟩
    else
      match processStep with
      | some msg => ⟨false, 0, p0 ++ [MainEvent.errorDuringProcessing msg]⟩
      | none => ⟨false, 0, p0 ++ [MainEvent.processingCompleted]⟩
  | _ =>
    if urlTruthy urlArg = false then
      ⟨false, 0, [MainEvent.urlRequired]⟩
    else
      let url := urlArg.getD ""
      let p1 := [MainEvent.startingCrawl url, MainEvent.crawlParams maxDepth maxPages]
      match crawlStep with
      | Except.error msg => ⟨false, 0, p1 ++ [MainEvent.errorDuringProcessing msg]⟩
      | Except.ok results =>
        let p2 := p1 ++ [MainEvent.crawledPages results.length, MainEvent.resultsSaved resultsFile]
        if mode = Mode.both ∧ outputFmt ≠ "json" then
          match processStep with
          | some msg =>
            ⟨false, 0, p2 ++ [MainEvent.processingToFormat outputFmt,
              MainEvent.errorDuringProcessing msg]⟩
          | none =>
            ⟨false, 0, p2 ++ [MainEvent.processingToFormat outputFmt,
              MainEvent.processCompleted]⟩
        else ⟨false, 0, p2 ++ [MainEvent.processCompleted]⟩

/-! ## The spec reading of the filename derivation, for comparison

Claim C1 reads the filename derivation as stripping only the file extension
while preserving every path segment.  The following definition renders that
reading: same slash stripping, same underscore replacement and index
fallback, but the cut removes only the part from the last dot on. -/

/-- Modelled from the spec wording of claim C1: the name keeps everything up
to the last dot, so only the extension is removed and all path segments are
preserved. -/
def filenameSpecExtOnly (path : String) : String :=
  let p := pyStripChar '/' path.data
  let slug := if p = [] then "index".data else pyReplaceChar '/' '_' p
  let t := slug.reverse.dropWhile (fun c => c != '.')
  let base := if t = [] then slug else (t.drop 1).reverse
  ⟨base ++ ".md".data⟩

/-! ## Lemmas on the string primitives -/

/-- The Python split always yields a first group, and it is the longest
separator free prefix. -/
theorem pySplitChar_head (sep : Char) :
    ∀ cs : List Char, ∃ gs, pySplitChar sep cs
      = (cs.takeWhile (fun c => c != sep)) :: gs := by
  intro cs
  induction cs with
  | nil => exact ⟨[], rfl⟩
  | cons c cs ih =>
    obtain ⟨gs, h⟩ := ih
    by_cases hc : c = sep
    · refine ⟨cs.takeWhile (fun x => x != sep) :: gs, ?_⟩
      simp [pySplitChar, h, hc, List.takeWhile_cons]
    · refine ⟨gs, ?_⟩
      simp [pySplitChar, h, List.takeWhile_cons, hc]

/-- The first group of the Python split, as the code reads it with the zero
subscript. -/
theorem pySplitChar_headD (sep : Char) (cs : List Char) :
    (pySplitChar sep cs).headD [] = cs.takeWhile (fun c => c != sep) := by
  obtain ⟨gs, h⟩ := pySplitChar_head sep cs
  simp [h]

/-- The slug is the separator free prefix of the underscored stripped path,
with the index fallback. -/
theorem slugOfPath_eq (path : String) :
    slugOfPath path =
      (if pyStripChar '/' path.data = [] then "index".data
       else pyReplaceChar '/' '_' (pyStripChar '/' path.data)).takeWhile
        (fun c => c != '.') := by
  simp only [slugOfPath, pySplitChar_headD]

/-! ## Claims about the filename derivation -/

/-- Claim C1, counterexample: on a URL whose path has a dot inside an inner
segment, the code keeps only the part before the first dot, so later path
segments are dropped, while the claimed extension only stripping would keep
them. -/
theorem c1_counterexample :
    filenameOfUrl "https://example.com/guides/v1.2/intro.html" = "guides_v1.md" ∧
    filenameSpecExtOnly (urlparseModel "https://example.com/guides/v1.2/intro.html").path
      = "guides_v1.2_intro.md" ∧
    filenameOfUrl "https://example.com/guides/v1.2/intro.html" ≠
      filenameSpecExtOnly (urlparseModel "https://example.com/guides/v1.2/intro.html").path :=
  ⟨by decide, by decide, by decide⟩

/-- Claim C1, amended: the markdown filename is the URL path with slashes
stripped at the ends and replaced by underscores inside, truncated at the
first dot, so everything from the first dot on is removed, which can drop
more than the extension, and the dot free prefix gets the md suffix; the
slug never contains a dot. -/
theorem c1_amended_filename (path : String) :
    filenameOfPath path =
      ⟨((if pyStripChar '/' path.data = [] then "index".data
         else pyReplaceChar '/' '_' (pyStripChar '/' path.data)).takeWhile
          (fun c => c != '.')) ++ ".md".data⟩ ∧
    (slugOfPath path).all (fun c => c != '.') = true := by
  constructor
  · simp [filenameOfPath, slugOfPath_eq]
  · rw [slugOfPath_eq, List.all_eq_true]
    intro c hc
    simpa using List.mem_takeWhile_imp hc

/-- Claim C7: the filename derivation is a deterministic function of the
URL; two evaluations on equal URLs give equal filenames. -/
theorem c7_filename_deterministic (u₁ u₂ : String) (h : u₁ = u₂) :
    filenameOfUrl u₁ = filenameOfUrl u₂ := by
  rw [h]

/-- Witness for claim C7 at a concrete URL. -/
theorem c7_filename_deterministic_witness :
    filenameOfUrl "https://example.com/docs/a" = filenameOfUrl "https://example.com/docs/a" :=
  c7_filename_deterministic "https://example.com/docs/a" "https://example.com/docs/a" rfl

/-- Claim C9: a URL path that is empty or made of slashes only yields the
filename index dot md. -/
theorem c9_empty_path_index (path : String)
    (h : ∀ c ∈ path.data, c = '/') : filenameOfPath path = "index.md" := by
  have hp : pyStripChar '/' path.data = [] := by
    have h1 : path.data.dropWhile (fun c => c = '/') = [] := by
      rw [List.dropWhile_eq_nil_iff]
      intro x hx
      simp [h x hx]
    simp [pyStripChar, h1]
  simp only [filenameOfPath, slugOfPath, hp]
  decide

/-- Witness for claim C9: the slash only path, and the two example URLs with
an empty path and a bare slash path. -/
theorem c9_empty_path_index_witness :
    filenameOfPath "///" = "index.md" ∧
    filenameOfUrl "https://example.com" = "index.md" ∧
    filenameOfUrl "https://example.com/" = "index.md" :=
  ⟨c9_empty_path_index "///" (by decide),
   c9_empty_path_index (urlparseModel "https://example.com").path (by decide),
   c9_empty_path_index (urlparseModel "https://example.com/").path (by decide)⟩

/-! ## Lemmas on the processing loop -/

/-- Closed form of the enumerated loop: invocation trace, both counters and
the event log, each a function of the record list and the oracle. -/
theorem processLoop_spec (fmt : String) (outDir : List String) (total : Nat)
    (oracle : Nat → RunOutcome) :
    ∀ (rs : List Rec) (i : Nat) (st : LoopState),
      processLoop fmt outDir total oracle i rs st =
        ⟨st.invocations ++ rs.map (invOf fmt outDir),
         st.processed + okCount oracle i rs.length,
         st.errors + errCount oracle i rs.length,
         st.events ++ eventsOf fmt outDir total oracle i rs⟩ := by
  intro rs
  induction rs with
  | nil =>
    intro i st
    simp [processLoop, okCount, errCount, eventsOf]
  | cons r rs ih =>
    intro i st
    rw [processLoop, ih]
    by_cases ho : oracle i = RunOutcome.ok <;>
      simp [stepRecord, ho, okCount, errCount, eventsOf, List.append_assoc] <;>
      omega

/-- The two counters always account for every position. -/
theorem okCount_add_errCount (oracle : Nat → RunOutcome) :
    ∀ (n i : Nat), okCount oracle i n + errCount oracle i n = n := by
  intro n
  induction n with
  | zero => intro i; simp [okCount, errCount]
  | succ n ih =>
    intro i
    have hrec := ih (i + 1)
    by_cases ho : oracle i = RunOutcome.ok <;> simp [okCount, errCount, ho] <;> omega

/-- A failing position inside the window makes the error count positive. -/
theorem errCount_pos (oracle : Nat → RunOutcome) :
    ∀ (n i j : Nat), i ≤ j → j < i + n → oracle j ≠ RunOutcome.ok →
      1 ≤ errCount oracle i n := by
  intro n
  induction n with
  | zero => intro i j h1 h2 _; omega
  | succ n ih =>
    intro i j h1 h2 h3
    by_cases he : j = i
    · subst he
      simp [errCount, h3]
    · have := ih (i + 1) j (by omega) (by omega) h3
      by_cases ho : oracle i = RunOutcome.ok <;> (simp [errCount, ho]; try omega)

/-- Splitting the event log of the loop at a list split. -/
theorem eventsOf_append (fmt : String) (outDir : List String) (total : Nat)
    (oracle : Nat → RunOutcome) :
    ∀ (xs ys : List Rec) (i : Nat),
      eventsOf fmt outDir total oracle i (xs ++ ys) =
        eventsOf fmt outDir total oracle i xs ++
          eventsOf fmt outDir total oracle (i + xs.length) ys := by
  intro xs
  induction xs with
  | nil => intro ys i; simp [eventsOf]
  | cons x xs ih =>
    intro ys i
    simp [eventsOf, ih, List.append_assoc]
    have : i + (xs.length + 1) = i + 1 + xs.length := by omega
    rw [this]

/-- The slug never contains a slash: interior slashes are replaced by
underscores, boundary slashes are stripped, and the fallback word has none. -/
theorem slugOfPath_no_slash (path : String) :
    (slugOfPath path).all (fun c => c != '/') = true := by
  rw [slugOfPath_eq, List.all_eq_true]
  intro c hc
  have hmem := (List.takeWhile_sublist (fun c => c != '.')).subset hc
  by_cases hp : pyStripChar '/' path.data = []
  · simp [hp] at hmem
    rcases hmem with h | h | h | h | h <;> simp [h]
  · simp [hp, pyReplaceChar] at hmem
    obtain ⟨a, _, ha⟩ := hmem
    by_cases haa : a = '/'
    · simp [haa] at ha
      simp [← ha]
    · simp [haa] at ha
      simp [← ha, haa]

/-- The filename never contains a slash. -/
theorem filenameOfUrl_no_slash (url : String) :
    (filenameOfUrl url).data.all (fun c => c != '/') = true := by
  show (slugOfPath (urlparseModel url).path ++ ".md".data).all (fun c => c != '/') = true
  rw [List.all_append]
  simp [slugOfPath_no_slash]

/-! ## Claims about the processing loop -/

/-- Claim C5: the loop issues exactly one converter invocation per record,
in the order of the records, so the trace is the map of the per record
command over the loaded list. -/
theorem c5_one_invocation_per_record (sourceUrl : Option String)
    (fmt markdownDir : String) (oracle : Nat → RunOutcome) (results : List Rec) :
    (processUrls sourceUrl fmt markdownDir oracle results).invocations
      = results.map
          (invOf fmt (processUrls sourceUrl fmt markdownDir oracle results).outputDir) := by
  simp [processUrls, processLoop_spec]

/-- Claim C3: when the subprocess call fails at some position, the loop still
issues one invocation for every record of the list, the failure is recorded
by the matching error print event, the error counter is positive, and the two
counters account for the whole list. -/
theorem c3_failure_does_not_halt_batch (sourceUrl : Option String)
    (fmt markdownDir : String) (oracle : Nat → RunOutcome)
    (pre post : List Rec) (r : Rec)
    (hfail : oracle pre.length ≠ RunOutcome.ok) :
    let results := pre ++ r :: post
    let P := processUrls sourceUrl fmt markdownDir oracle results
    P.invocations = results.map (invOf fmt P.outputDir) ∧
    P.invocations.length = results.length ∧
    1 ≤ P.errors ∧
    P.processed + P.errors = results.length ∧
    (LoopEvent.errorProcessing r.url ∈ P.events ∨
      LoopEvent.unexpectedError ∈ P.events) := by
  intro results P
  have hinv : P.invocations = results.map (invOf fmt P.outputDir) :=
    c5_one_invocation_per_record sourceUrl fmt markdownDir oracle results
  refine ⟨hinv, ?_, ?_, ?_, ?_⟩
  · rw [hinv, List.length_map]
  · show 1 ≤ (processUrls sourceUrl fmt markdownDir oracle results).errors
    simp only [processUrls, processLoop_spec]
    have := errCount_pos oracle results.length 0 pre.length (by omega)
      (by simp only [results, List.length_append, List.length_cons]; omega) hfail
    simpa using this
  · show P.processed + P.errors = results.length
    simp only [P, processUrls, processLoop_spec]
    simpa using okCount_add_errCount oracle results.length 0
  · show _ ∨ _
    have hev : P.events = eventsOf fmt P.outputDir results.length oracle 0 results := by
      simp [P, processUrls, processLoop_spec]
    rw [hev, eventsOf_append]
    rcases ho : oracle pre.length with _ | _ | _
    · exact absurd ho hfail
    · left
      simp [eventsOf, stepEvents, ho]
    · right
      simp [eventsOf, stepEvents, ho]

/-- Witness for claim C3 at a concrete failing oracle. -/
theorem c3_failure_does_not_halt_batch_witness :
    1 ≤ (processUrls none "md-fit" defaultMarkdownDir
          (fun _ => RunOutcome.calledProcessError)
          ([] ++ (⟨"https://example.com/a", 0, ""⟩ : Rec) :: [])).errors :=
  (c3_failure_does_not_halt_batch none "md-fit" defaultMarkdownDir
    (fun _ => RunOutcome.calledProcessError) [] []
    ⟨"https://example.com/a", 0, ""⟩ (by decide)).2.2.1

/-- Claim C10: after any prefix of the loop the two counters sum to the
number of records attempted, at the end they sum to the length of the loaded
list, and the summary line prints exactly the two counters. -/
theorem c10_counter_invariant (sourceUrl : Option String)
    (fmt markdownDir : String) (oracle : Nat → RunOutcome)
    (results : List Rec) (k : Nat) (hk : k ≤ results.length) :
    let P := processUrls sourceUrl fmt markdownDir oracle results
    let partial_ := processLoop fmt P.outputDir results.length oracle 0
      (results.take k) ⟨[], 0, 0, []⟩
    partial_.processed + partial_.errors = k ∧
    P.processed + P.errors = results.length ∧
    P.summary = "\nProcessing complete: " ++ toString P.processed
      ++ " created, " ++ toString P.errors ++ " errors" := by
  intro P partial_
  refine ⟨?_, ?_, ?_⟩
  · have hlen : (results.take k).length = k := by
      simp [List.length_take]
      omega
    simp only [partial_, processLoop_spec, hlen]
    simpa using okCount_add_errCount oracle k 0
  · show P.processed + P.errors = results.length
    simp only [P, processUrls, processLoop_spec]
    simpa using okCount_add_errCount oracle results.length 0
  · simp [P, processUrls]

/-- Witness for claim C10 at a concrete list and prefix length. -/
theorem c10_counter_invariant_witness :
    1 ≤ ([(⟨"https://example.com/a", 0, ""⟩ : Rec),
          ⟨"https://example.com/b", 1, ""⟩] : List Rec).length ∧
    (processUrls none "md-fit" defaultMarkdownDir (fun _ => RunOutcome.ok)
        [⟨"https://example.com/a", 0, ""⟩, ⟨"https://example.com/b", 1, ""⟩]).processed +
      (processUrls none "md-fit" defaultMarkdownDir (fun _ => RunOutcome.ok)
        [⟨"https://example.com/a", 0, ""⟩, ⟨"https://example.com/b", 1, ""⟩]).errors = 2 :=
  ⟨by decide,
   (c10_counter_invariant none "md-fit" defaultMarkdownDir (fun _ => RunOutcome.ok)
     [⟨"https://example.com/a", 0, ""⟩, ⟨"https://example.com/b", 1, ""⟩] 1
     (by decide)).2.1⟩

/-! ## Claims about the output directory -/

/-- Claim C6, counterexample: a source URL without a netloc yields an empty
derived domain, and the code then takes the domain from the first result
instead, so the outputs do not land in a directory named after the source
URL domain. -/
theorem c6_counterexample :
    (processUrls (some "foo") "md-fit" defaultMarkdownDir (fun _ => RunOutcome.ok)
        [⟨"https://example.com/a", 0, ""⟩]).outputDir
      = ["markdown_output", "example.com"] ∧
    domainOfUrl "foo" = "" ∧
    (processUrls (some "foo") "md-fit" defaultMarkdownDir (fun _ => RunOutcome.ok)
        [⟨"https://example.com/a", 0, ""⟩]).outputDir
      ≠ [defaultMarkdownDir, domainOfUrl "foo"] :=
  ⟨by decide, by decide, by decide⟩

/-- Claim C6, amended: the output directory is the markdown directory plus
the computed domain when that domain is nonempty, and the bare markdown
directory otherwise; the domain comes from the source URL when the source
URL yields a nonempty domain, with the netloc transformed by replacing every
occurrence of the www dot pattern and cutting at the first colon; the
directory is created; and every invocation writes to that directory under a
slash free filename derived from the url of some record. -/
theorem c6_domain_directory (sourceUrl : Option String)
    (fmt markdownDir : String) (oracle : Nat → RunOutcome) (results : List Rec) :
    let P := processUrls sourceUrl fmt markdownDir oracle results
    let d := computeDomain sourceUrl results
    P.outputDir = (if d = "" then [markdownDir] else [markdownDir, d]) ∧
    P.created = [P.outputDir] ∧
    (∀ su : String, sourceUrl = some su → domainOfUrl su ≠ "" →
      P.outputDir = [markdownDir, domainOfUrl su]) ∧
    (∀ inv ∈ P.invocations, ∃ r ∈ results,
      inv.outputPath = P.outputDir ++ [filenameOfUrl r.url] ∧
      (filenameOfUrl r.url).data.all (fun c => c != '/') = true) := by
  intro P d
  refine ⟨rfl, rfl, ?_, ?_⟩
  · intro su hsu hdom
    show (if d = "" then [markdownDir] else [markdownDir, d]) = _
    have hne : su ≠ "" := by
      intro he
      rw [he] at hdom
      exact hdom (by decide)
    have hd : d = domainOfUrl su := by
      simp [d, computeDomain, hsu, hne, hdom]
    rw [hd, if_neg hdom]
  · intro inv hinv
    have htrace := c5_one_invocation_per_record sourceUrl fmt markdownDir oracle results
    rw [htrace] at hinv
    obtain ⟨r, hr, hrw⟩ := List.mem_map.mp hinv
    exact ⟨r, hr, by rw [← hrw]; rfl, filenameOfUrl_no_slash r.url⟩

/-- Witness for claim C6 at a source URL with a nonempty domain. -/
theorem c6_domain_directory_witness :
    (processUrls (some "https://www.example.com:8080/start") "md-fit"
        defaultMarkdownDir (fun _ => RunOutcome.ok)
        [⟨"https://www.example.com:8080/a/b", 0, ""⟩]).outputDir
      = [defaultMarkdownDir, domainOfUrl "https://www.example.com:8080/start"] :=
  (c6_domain_directory (some "https://www.example.com:8080/start") "md-fit"
      defaultMarkdownDir (fun _ => RunOutcome.ok)
      [⟨"https://www.example.com:8080/a/b", 0, ""⟩]).2.2.1
    "https://www.example.com:8080/start" rfl (by decide)

/-! ## Claim about the error handling of main -/

/-- Claim C8: no exception escapes main through the crawl or processing
steps, the exit code is always zero, and every exception raised inside one
of the two guarded steps leads to the error print with its message: in
process mode, in crawl mode, and in the processing part of both mode. -/
theorem c8_main_catches_step_errors (mode : Mode) (urlArg : Option String)
    (resultsFile : String) (resultsFileExists : Bool) (maxDepth maxPages : Int)
    (outputFmt : String) (crawlStep : Except String (List Rec))
    (processStep : Option String) :
    let M := mainModel mode urlArg resultsFile resultsFileExists maxDepth
      maxPages outputFmt crawlStep processStep
    M.raised = false ∧
    M.exitCode = 0 ∧
    (∀ msg, mode = Mode.process → resultsFileExists = true →
      processStep = some msg →
      MainEvent.errorDuringProcessing msg ∈ M.printed) ∧
    (∀ msg, mode ≠ Mode.process → urlTruthy urlArg = true →
      crawlStep = Except.error msg →
      MainEvent.errorDuringProcessing msg ∈ M.printed) ∧
    (∀ msg results, mode = Mode.both → urlTruthy urlArg = true →
      outputFmt ≠ "json" → crawlStep = Except.ok results →
      processStep = some msg →
      MainEvent.errorDuringProcessing msg ∈ M.printed) := by
  intro M
  cases mode <;>
    rcases crawlStep with cmsg | cresults <;>
    rcases processStep with _ | pmsg <;>
    cases resultsFileExists <;>
    by_cases hu : urlTruthy urlArg = true <;>
    by_cases hf : outputFmt = "json" <;>
    simp_all [M, mainModel]

/-- Witness for claim C8: a process mode run whose processing step raises. -/
theorem c8_main_catches_step_errors_witness :
    (mainModel Mode.process none "results.json" true 2 50 "md-fit"
      (Except.ok []) (some "boom")).raised = false ∧
    MainEvent.errorDuringProcessing "boom" ∈
      (mainModel Mode.process none "results.json" true 2 50 "md-fit"
        (Except.ok []) (some "boom")).printed :=
  ⟨(c8_main_catches_step_errors Mode.process none "results.json" true 2 50
      "md-fit" (Except.ok []) (some "boom")).1,
   (c8_main_catches_step_errors Mode.process none "results.json" true 2 50
      "md-fit" (Except.ok []) (some "boom")).2.2.1 "boom" rfl rfl rfl⟩

/-! ## Lemmas on the json serialization and parser -/

/-- Hexadecimal digit characters decode back to their value. -/
theorem hexVal_hexDigitChar : ∀ k, k < 16 → hexVal (hexDigitChar k) = some k := by decide

/-- Decimal digit characters are digits. -/
theorem digitChar_isDigit : ∀ k, k < 10 → (digitChar k).isDigit = true := by decide

/-- Decimal digit characters decode back to their value. -/
theorem digitChar_toNat : ∀ k, k < 10 → (digitChar k).toNat - 48 = k := by decide

/-- A digit character is not one of the parser dispatch characters. -/
theorem isDigit_not_dispatch (c : Char) (h : c.isDigit = true) :
    c ≠ '"' ∧ c ≠ '[' ∧ c ≠ lbrace ∧ c ≠ '-' ∧ isJsonWs c = false := by
  refine ⟨?_, ?_, ?_, ?_, ?_⟩
  · intro he; rw [he] at h; exact absurd h (by decide)
  · intro he; rw [he] at h; exact absurd h (by decide)
  · intro he; rw [he] at h; exact absurd h (by decide)
  · intro he; rw [he] at h; exact absurd h (by decide)
  · rcases hw : isJsonWs c with _ | _
    · rfl
    · exfalso
      have h2 : ((c = ' ' ∨ c = '\t') ∨ c = '\n') ∨ c = '\r' := by
        simpa [isJsonWs] using hw
      rcases h2 with ((h1 | h1) | h1) | h1 <;> rw [h1] at h <;> exact absurd h (by decide)

/-- Parsing the escaped body of a string recovers the string. -/
theorem parseStringBody_escape :
    ∀ (cs rest : List Char),
      parseStringBody (escapeString cs ++ '"' :: rest) = some (cs, rest) := by
  intro cs
  induction cs with
  | nil =>
    intro rest
    show parseStringBody (escapeString [] ++ '"' :: rest) = some ([], rest)
    rw [show escapeString [] ++ '"' :: rest = '"' :: rest by simp [escapeString]]
    rw [parseStringBody.eq_def]
    simp
  | cons c cs ih =>
    intro rest
    have hsplit : escapeString (c :: cs) = escapeChar c ++ escapeString cs := by
      simp [escapeString]
    rw [hsplit, List.append_assoc]
    by_cases h1 : c = '"'
    · rw [h1, show escapeChar '"' = ['\\', '"'] from by decide]
      rw [List.cons_append, List.cons_append, parseStringBody.eq_def]
      simp [unescapeChar, ih]
    · by_cases h2 : c = '\\'
      · rw [h2, show escapeChar '\\' = ['\\', '\\'] from by decide]
        rw [List.cons_append, List.cons_append, parseStringBody.eq_def]
        simp [unescapeChar, ih]
      · by_cases h3 : c = '\n'
        · rw [h3, show escapeChar '\n' = ['\\', 'n'] from by decide]
          rw [List.cons_append, List.cons_append, parseStringBody.eq_def]
          simp [unescapeChar, ih]
        · by_cases h4 : c = '\r'
          · rw [h4, show escapeChar '\r' = ['\\', 'r'] from by decide]
            rw [List.cons_append, List.cons_append, parseStringBody.eq_def]
            simp [unescapeChar, ih]
          · by_cases h5 : c = '\t'
            · rw [h5, show escapeChar '\t' = ['\\', 't'] from by decide]
              rw [List.cons_append, List.cons_append, parseStringBody.eq_def]
              simp [unescapeChar, ih]
            · by_cases h6 : c = Char.ofNat 8
              · rw [h6, show escapeChar (Char.ofNat 8) = ['\\', 'b'] from by decide]
                rw [List.cons_append, List.cons_append, parseStringBody.eq_def]
                simp [unescapeChar, ih]
              · by_cases h7 : c = Char.ofNat 12
                · rw [h7, show escapeChar (Char.ofNat 12) = ['\\', 'f'] from by decide]
                  rw [List.cons_append, List.cons_append, parseStringBody.eq_def]
                  simp [unescapeChar, ih]
                · by_cases h8 : c.toNat < 32
                  · have e1 : escapeChar c =
                        ['\\', 'u', '0', '0', hexDigitChar (c.toNat / 16),
                          hexDigitChar (c.toNat % 16)] := by
                      simp [escapeChar, h1, h2, h3, h4, h5, h6, h7, h8]
                    have hv0 : hexVal '0' = some 0 := by decide
                    have hv1 : hexVal (hexDigitChar (c.toNat / 16)) = some (c.toNat / 16) :=
                      hexVal_hexDigitChar _ (by omega)
                    have hv2 : hexVal (hexDigitChar (c.toNat % 16)) = some (c.toNat % 16) :=
                      hexVal_hexDigitChar _ (by omega)
                    have harith : ((0 * 16 + 0) * 16 + c.toNat / 16) * 16 + c.toNat % 16
                        = c.toNat := by omega
                    rw [e1]
                    simp only [List.cons_append]
                    rw [parseStringBody.eq_def]
                    simp [hv0, hv1, hv2, ih]
                    rw [show c.toNat / 16 * 16 + c.toNat % 16 = c.toNat from by omega,
                      Char.ofNat_toNat]
                  · rw [show escapeChar c = [c] from by
                      simp [escapeChar, h1, h2, h3, h4, h5, h6, h7, h8]]
                    simp only [List.cons_append, List.nil_append]
                    rw [parseStringBody.eq_def]
                    simp [h1, h2, h8, ih]

/-- Every character of a rendered natural number is a digit. -/
theorem natDigits_all_digits (n : Nat) : ∀ c ∈ natDigits n, c.isDigit = true := by
  induction n using Nat.strong_induction_on with
  | _ n ih =>
    rw [natDigits]
    by_cases h : n < 10
    · simp [h, digitChar_isDigit n h]
    · simp only [h, dite_false]
      intro c hc
      rcases List.mem_append.mp hc with hc1 | hc1
      · exact ih (n / 10) (Nat.div_lt_self (by omega) (by omega)) c hc1
      · have : c = digitChar (n % 10) := by simpa using hc1
        rw [this]
        exact digitChar_isDigit _ (by omega)

/-- A rendered natural number is never the empty string. -/
theorem natDigits_ne_nil (n : Nat) : natDigits n ≠ [] := by
  rw [natDigits]
  by_cases h : n < 10 <;> simp [h]

/-- Folding the digit accumulation over a rendered natural number. -/
theorem natDigits_foldl (n : Nat) :
    ∀ acc, (natDigits n).foldl (fun a c => a * 10 + (c.toNat - 48)) acc
      = acc * 10 ^ (natDigits n).length + n := by
  induction n using Nat.strong_induction_on with
  | _ n ih =>
    intro acc
    rw [natDigits]
    by_cases h : n < 10
    · simp [h, digitChar_toNat n h]
    · simp only [h, dite_false, List.foldl_append, List.foldl_cons, List.foldl_nil,
        List.length_append, List.length_cons, List.length_nil]
      rw [ih (n / 10) (Nat.div_lt_self (by omega) (by omega)) acc]
      rw [digitChar_toNat _ (by omega)]
      rw [pow_succ]
      have hd := Nat.div_add_mod n 10
      generalize (10 : Nat) ^ (natDigits (n / 10)).length = t
      have hexp : (acc * t + n / 10) * 10 + n % 10 = acc * (t * 10) + (n / 10 * 10 + n % 10) := by
        ring
      rw [hexp]
      omega

/-- The digit scanner consumes exactly a block of digits followed by a non
digit boundary. -/
theorem parseDigitsAux_append (ds : List Char) (hds : ∀ c ∈ ds, c.isDigit = true)
    (rest : List Char) (hrest : ∀ c, rest.head? = some c → c.isDigit = false) :
    ∀ acc, parseDigitsAux acc (ds ++ rest)
      = (ds.foldl (fun a c => a * 10 + (c.toNat - 48)) acc, rest) := by
  induction ds with
  | nil =>
    intro acc
    rcases rest with _ | ⟨c, tail⟩
    · simp [parseDigitsAux]
    · have := hrest c rfl
      simp [parseDigitsAux, this]
  | cons d ds ih =>
    intro acc
    have hd : d.isDigit = true := hds d (List.mem_cons_self d ds)
    simp only [List.cons_append, parseDigitsAux, hd, if_true]
    exact ih (fun c hc => hds c (List.mem_cons_of_mem d hc)) _

/-- Parsing the rendered integer recovers the integer, given a non digit
boundary. -/
theorem parseIntTok_dumpInt (i : Int) (rest : List Char)
    (hrest : ∀ c, rest.head? = some c → c.isDigit = false) :
    parseIntTok (dumpInt i ++ rest) = some (i, rest) := by
  obtain ⟨d, ds, hdds⟩ := List.exists_cons_of_ne_nil (natDigits_ne_nil i.natAbs)
  have hdig : d.isDigit = true := natDigits_all_digits i.natAbs d (by rw [hdds]; simp)
  have hscan : parseDigitsAux 0 (natDigits i.natAbs ++ rest) = (i.natAbs, rest) := by
    rw [parseDigitsAux_append (natDigits i.natAbs) (natDigits_all_digits i.natAbs) rest hrest 0]
    rw [natDigits_foldl]
    simp
  by_cases hneg : i < 0
  · have hdump : dumpInt i = '-' :: natDigits i.natAbs := by simp [dumpInt, hneg]
    rw [hdump, List.cons_append, parseIntTok.eq_def]
    simp only [if_pos rfl]
    rw [hdds, List.cons_append]
    simp only [hdig, if_true]
    rw [← List.cons_append, ← hdds, hscan]
    have : -(i.natAbs : Int) = i := by omega
    rw [this]
  · have hdump : dumpInt i = natDigits i.natAbs := by simp [dumpInt, hneg]
    have hdm : d ≠ '-' := (isDigit_not_dispatch d hdig).2.2.2.1
    rw [hdump, hdds, List.cons_append, parseIntTok.eq_def]
    simp only [hdm, if_false, ite_false, hdig, if_true, ite_true]
    rw [← List.cons_append, ← hdds, hscan]
    have : (i.natAbs : Int) = i := by omega
    rw [this]

/-- One step unfolding of skipWs. -/
theorem skipWs_cons (c : Char) (s : List Char) :
    skipWs (c :: s) = if isJsonWs c then skipWs s else c :: s := rfl

/-- One step unfolding of the value parser at successor fuel. -/
theorem parseValue_succ (f : Nat) (s : List Char) :
    parseValue (f + 1) s =
      (match skipWs s with
       | [] => none
       | c :: rest =>
         if c = '"' then
           match parseStringBody rest with
           | some (cs, r) => some (Json.str cs, r)
           | none => none
         else if c = '[' then
           match skipWs rest with
           | [] => none
           | d :: r1 =>
             if d = ']' then some (Json.arr [], r1)
             else
               match parseValue f (d :: r1) with
               | some (v, r2) =>
                 match parseArrTail f r2 with
                 | some (vs, r3) => some (Json.arr (v :: vs), r3)
                 | none => none
               | none => none
         else if c = lbrace then
           match skipWs rest with
           | [] => none
           | x :: r2 =>
             if x = rbrace then some (Json.obj [], r2)
             else
               match parseMember f (x :: r2) with
               | some (kv, r3) =>
                 match parseObjTail f r3 with
                 | some (kvs, r4) => some (Json.obj (kv :: kvs), r4)
                 | none => none
               | none => none
         else
           match parseIntTok (c :: rest) with
           | some (i, r) => some (Json.int i, r)
           | none => none) := rfl

/-- One step unfolding of the member parser at successor fuel. -/
theorem parseMember_succ (f : Nat) (s : List Char) :
    parseMember (f + 1) s =
      (match skipWs s with
       | [] => none
       | c :: rest =>
         if c = '"' then
           match parseStringBody rest with
           | some (key, r1) =>
             match skipWs r1 with
             | c2 :: r2 =>
               if c2 = ':' then
                 match parseValue f r2 with
                 | some (v, r3) => some ((key, v), r3)
                 | none => none
               else none
             | [] => none
           | none => none
         else none) := rfl

/-- One step unfolding of the array continuation parser at successor fuel. -/
theorem parseArrTail_succ (f : Nat) (s : List Char) :
    parseArrTail (f + 1) s =
      (match skipWs s with
       | [] => none
       | c :: rest =>
         if c = ']' then some ([], rest)
         else if c = ',' then
           match parseValue f rest with
           | some (v, r1) =>
             match parseArrTail f r1 with
             | some (vs, r2) => some (v :: vs, r2)
             | none => none
           | none => none
         else none) := rfl

/-- One step unfolding of the object continuation parser at successor fuel. -/
theorem parseObjTail_succ (f : Nat) (s : List Char) :
    parseObjTail (f + 1) s =
      (match skipWs s with
       | [] => none
       | c :: rest =>
         if c = rbrace then some ([], rest)
         else if c = ',' then
           match parseMember f rest with
           | some (kv, r1) =>
             match parseObjTail f r1 with
             | some (kvs, r2) => some (kv :: kvs, r2)
             | none => none
           | none => none
         else none) := rfl

/-- The value parser ignores one leading whitespace character. -/
theorem parseValue_ws (f : Nat) (c : Char) (hc : isJsonWs c = true) (s : List Char) :
    parseValue f (c :: s) = parseValue f s := by
  cases f with
  | zero => rfl
  | succ f =>
    rw [parseValue_succ, parseValue_succ, skipWs_cons, hc, if_pos rfl]

/-- The member parser ignores one leading whitespace character. -/
theorem parseMember_ws (f : Nat) (c : Char) (hc : isJsonWs c = true) (s : List Char) :
    parseMember f (c :: s) = parseMember f s := by
  cases f with
  | zero => rfl
  | succ f =>
    rw [parseMember_succ, parseMember_succ, skipWs_cons, hc, if_pos rfl]

/-- Parsing a serialized string as a value. -/
theorem parseValue_dumpString (f : Nat) (cs rest : List Char) :
    parseValue (f + 1) (dumpString cs ++ rest) = some (Json.str cs, rest) := by
  have hshape : dumpString cs ++ rest = '"' :: (escapeString cs ++ '"' :: rest) := by
    simp [dumpString]
  rw [hshape, parseValue_succ, skipWs_cons]
  simp [isJsonWs, parseStringBody_escape]

/-- Parsing a serialized integer as a value, given a non digit boundary. -/
theorem parseValue_dumpInt (f : Nat) (i : Int) (rest : List Char)
    (hrest : ∀ c, rest.head? = some c → c.isDigit = false) :
    parseValue (f + 1) (dumpInt i ++ rest) = some (Json.int i, rest) := by
  have hhead : ∃ d ds, dumpInt i ++ rest = d :: ds ∧
      (d = '-' ∨ d.isDigit = true) := by
    by_cases hneg : i < 0
    · exact ⟨'-', natDigits i.natAbs ++ rest, by simp [dumpInt, hneg], Or.inl rfl⟩
    · obtain ⟨d, ds, hdds⟩ := List.exists_cons_of_ne_nil (natDigits_ne_nil i.natAbs)
      refine ⟨d, ds ++ rest, by simp [dumpInt, hneg, hdds], Or.inr ?_⟩
      exact natDigits_all_digits i.natAbs d (by rw [hdds]; simp)
  obtain ⟨d, ds, hdds, hd⟩ := hhead
  have hdisp : d ≠ '"' ∧ d ≠ '[' ∧ d ≠ lbrace ∧ isJsonWs d = false := by
    rcases hd with hd | hd
    · rw [hd]
      refine ⟨by decide, by decide, by decide, by decide⟩
    · obtain ⟨a, b, c, _, e⟩ := isDigit_not_dispatch d hd
      exact ⟨a, b, c, e⟩
  rw [parseValue_succ, hdds, skipWs_cons, hdisp.2.2.2]
  simp only [Bool.false_eq_true, if_false]
  simp [hdisp.1, hdisp.2.1, hdisp.2.2.1, ← hdds, parseIntTok_dumpInt i rest hrest]

/-- Whitespace head steps of skipWs. -/
theorem skipWs_true (c : Char) (hc : isJsonWs c = true) (s : List Char) :
    skipWs (c :: s) = skipWs s := by
  rw [skipWs_cons, hc, if_pos rfl]

/-- Non whitespace head stops skipWs. -/
theorem skipWs_false (c : Char) (hc : isJsonWs c = false) (s : List Char) :
    skipWs (c :: s) = c :: s := by
  rw [skipWs_cons, hc]
  simp

/-- Parsing one serialized member starting at the key quote. -/
theorem parseMember_keyval (f : Nat) (key v : List Char) (vj : Json) (rest : List Char)
    (hv : parseValue f (v ++ rest) = some (vj, rest)) :
    parseMember (f + 1) (dumpString key ++ ':' :: ' ' :: (v ++ rest))
      = some ((key, vj), rest) := by
  have hshape : dumpString key ++ ':' :: ' ' :: (v ++ rest)
      = '"' :: (escapeString key ++ '"' :: (':' :: ' ' :: (v ++ rest))) := by
    simp [dumpString]
  rw [hshape, parseMember_succ, skipWs_false '"' (by decide)]
  simp only [if_pos rfl, parseStringBody_escape key (':' :: ' ' :: (v ++ rest))]
  rw [skipWs_false ':' (by decide)]
  simp [parseValue_ws f ' ' (by decide), hv]

/-- Parsing one serialized member with its leading indent. -/
theorem parseMember_objMember (f : Nat) (key v : List Char) (vj : Json) (rest : List Char)
    (hv : parseValue f (v ++ rest) = some (vj, rest)) :
    parseMember (f + 1) (objMember key v ++ rest) = some ((key, vj), rest) := by
  have hshape : objMember key v ++ rest
      = '\n' :: ' ' :: ' ' :: ' ' :: ' ' :: (dumpString key ++ ':' :: ' ' :: (v ++ rest)) := by
    simp [objMember]
  rw [hshape, parseMember_ws _ _ (by decide), parseMember_ws _ _ (by decide),
    parseMember_ws _ _ (by decide), parseMember_ws _ _ (by decide),
    parseMember_ws _ _ (by decide)]
  exact parseMember_keyval f key v vj rest hv

/-- The object continuation parser accepts the closing indent and brace. -/
theorem parseObjTail_close (f : Nat) (rest : List Char) :
    parseObjTail (f + 1) ('\n' :: ' ' :: ' ' :: rbrace :: rest) = some ([], rest) := by
  have hws : skipWs ('\n' :: ' ' :: ' ' :: rbrace :: rest) = rbrace :: rest := by
    rw [skipWs_true _ (by decide), skipWs_true _ (by decide), skipWs_true _ (by decide),
      skipWs_false _ (by decide)]
  rw [parseObjTail_succ, hws]
  simp

/-- The object continuation parser consumes a comma and one more serialized
member, then continues. -/
theorem parseObjTail_cons_member (f : Nat) (key v : List Char) (vj : Json)
    (Z rest : List Char) (kvs : List (List Char × Json))
    (hv : parseValue f (v ++ Z) = some (vj, Z))
    (hcont : parseObjTail (f + 1) Z = some (kvs, rest)) :
    parseObjTail (f + 2) (',' :: (objMember key v ++ Z))
      = some ((key, vj) :: kvs, rest) := by
  show parseObjTail ((f + 1) + 1) _ = _
  rw [parseObjTail_succ, skipWs_false ',' (by decide)]
  have h2 : ¬ (',' = rbrace) := by decide
  simp only [h2, ite_false, if_false, if_pos rfl]
  rw [parseMember_objMember f key v vj Z hv]
  simp [hcont]

/-- Parsing one serialized result record object recovers its JSON object. -/
theorem parseValue_dumpRecObj (g : Nat) (r : Rec) (rest : List Char) :
    parseValue (g + 5) (dumpRecObj r ++ rest) = some (recToJson r, rest) := by
  have hv3 : parseValue (g + 1)
      (dumpString r.title.data ++ ('\n' :: ' ' :: ' ' :: rbrace :: rest))
      = some (Json.str r.title.data, '\n' :: ' ' :: ' ' :: rbrace :: rest) :=
    parseValue_dumpString g _ _
  have hc3 : parseObjTail (g + 2) ('\n' :: ' ' :: ' ' :: rbrace :: rest)
      = some ([], rest) := parseObjTail_close (g + 1) rest
  have hc2 : parseObjTail (g + 3)
      (',' :: (objMember kTitle (dumpString r.title.data)
        ++ ('\n' :: ' ' :: ' ' :: rbrace :: rest)))
      = some ([(kTitle, Json.str r.title.data)], rest) :=
    parseObjTail_cons_member (g + 1) kTitle _ _ _ rest [] hv3 hc3
  have hrestZ2 : ∀ c,
      (',' :: (objMember kTitle (dumpString r.title.data)
        ++ ('\n' :: ' ' :: ' ' :: rbrace :: rest))).head? = some c →
      c.isDigit = false := by
    intro c hc
    simp only [List.head?_cons, Option.some.injEq] at hc
    cases hc
    decide
  have hv2 : parseValue (g + 2)
      (dumpInt r.depth ++ (',' :: (objMember kTitle (dumpString r.title.data)
        ++ ('\n' :: ' ' :: ' ' :: rbrace :: rest))))
      = some (Json.int r.depth,
          ',' :: (objMember kTitle (dumpString r.title.data)
            ++ ('\n' :: ' ' :: ' ' :: rbrace :: rest))) :=
    parseValue_dumpInt (g + 1) r.depth _ hrestZ2
  have hc1 : parseObjTail (g + 4)
      (',' :: (objMember kDepth (dumpInt r.depth)
        ++ (',' :: (objMember kTitle (dumpString r.title.data)
          ++ ('\n' :: ' ' :: ' ' :: rbrace :: rest)))))
      = some ([(kDepth, Json.int r.depth), (kTitle, Json.str r.title.data)], rest) :=
    parseObjTail_cons_member (g + 2) kDepth _ _ _ rest _ hv2 hc2
  have hv1 : parseValue (g + 3)
      (dumpString r.url.data ++ (',' :: (objMember kDepth (dumpInt r.depth)
        ++ (',' :: (objMember kTitle (dumpString r.title.data)
          ++ ('\n' :: ' ' :: ' ' :: rbrace :: rest))))))
      = some (Json.str r.url.data,
          ',' :: (objMember kDepth (dumpInt r.depth)
            ++ (',' :: (objMember kTitle (dumpString r.title.data)
              ++ ('\n' :: ' ' :: ' ' :: rbrace :: rest))))) :=
    parseValue_dumpString (g + 2) _ _
  have hm1 : parseMember (g + 4)
      ('"' :: (escapeString kUrl ++ '"' :: ':' :: ' '
        :: (dumpString r.url.data ++ (',' :: (objMember kDepth (dumpInt r.depth)
          ++ (',' :: (objMember kTitle (dumpString r.title.data)
            ++ ('\n' :: ' ' :: ' ' :: rbrace :: rest))))))))
      = some ((kUrl, Json.str r.url.data),
          ',' :: (objMember kDepth (dumpInt r.depth)
            ++ (',' :: (objMember kTitle (dumpString r.title.data)
              ++ ('\n' :: ' ' :: ' ' :: rbrace :: rest))))) := by
    have hk := parseMember_keyval (g + 3) kUrl (dumpString r.url.data)
      (Json.str r.url.data)
      (',' :: (objMember kDepth (dumpInt r.depth)
        ++ (',' :: (objMember kTitle (dumpString r.title.data)
          ++ ('\n' :: ' ' :: ' ' :: rbrace :: rest))))) hv1
    simpa [dumpString, List.append_assoc] using hk
  have hshape : dumpRecObj r ++ rest
      = lbrace :: (objMember kUrl (dumpString r.url.data)
          ++ (',' :: (objMember kDepth (dumpInt r.depth)
            ++ (',' :: (objMember kTitle (dumpString r.title.data)
              ++ ('\n' :: ' ' :: ' ' :: rbrace :: rest)))))) := by
    simp [dumpRecObj, List.append_assoc]
  have hsw : skipWs (objMember kUrl (dumpString r.url.data)
      ++ (',' :: (objMember kDepth (dumpInt r.depth)
        ++ (',' :: (objMember kTitle (dumpString r.title.data)
          ++ ('\n' :: ' ' :: ' ' :: rbrace :: rest))))))
      = '"' :: (escapeString kUrl ++ '"' :: ':' :: ' '
          :: (dumpString r.url.data ++ (',' :: (objMember kDepth (dumpInt r.depth)
            ++ (',' :: (objMember kTitle (dumpString r.title.data)
              ++ ('\n' :: ' ' :: ' ' :: rbrace :: rest))))))) := by
    rw [show objMember kUrl (dumpString r.url.data)
        ++ (',' :: (objMember kDepth (dumpInt r.depth)
          ++ (',' :: (objMember kTitle (dumpString r.title.data)
            ++ ('\n' :: ' ' :: ' ' :: rbrace :: rest)))))
        = '\n' :: ' ' :: ' ' :: ' ' :: ' '
          :: ('"' :: (escapeString kUrl ++ '"' :: ':' :: ' '
            :: (dumpString r.url.data ++ (',' :: (objMember kDepth (dumpInt r.depth)
              ++ (',' :: (objMember kTitle (dumpString r.title.data)
                ++ ('\n' :: ' ' :: ' ' :: rbrace :: rest))))))))
      from by simp [objMember, dumpString, List.append_assoc]]
    rw [skipWs_true _ (by decide), skipWs_true _ (by decide), skipWs_true _ (by decide),
      skipWs_true _ (by decide), skipWs_true _ (by decide), skipWs_false _ (by decide)]
  rw [hshape]
  show parseValue ((g + 4) + 1) _ = _
  rw [parseValue_succ, skipWs_false lbrace (by decide)]
  have hn1 : ¬ (lbrace = '"') := by decide
  have hn2 : ¬ (lbrace = '[') := by decide
  have hn3 : ¬ ('"' = rbrace) := by decide
  simp only [hn1, hn2, ite_false, if_false, if_pos rfl]
  rw [hsw]
  simp only [hn3, ite_false, if_false]
  rw [hm1]
  simp [hc1, recToJson]

/-- Parsing the serialized items after the first one, given enough fuel. -/
theorem parseArrTail_dumpItemsTail :
    ∀ (rs : List Rec) (f : Nat) (rest : List Char), rs.length + 6 ≤ f →
      parseArrTail f (dumpItemsTail rs ++ ('\n' :: ']' :: rest))
        = some (rs.map recToJson, rest) := by
  intro rs
  induction rs with
  | nil =>
    intro f rest hf
    obtain ⟨f₁, rfl⟩ : ∃ f₁, f = f₁ + 1 := ⟨f - 1, by omega⟩
    rw [show dumpItemsTail [] ++ ('\n' :: ']' :: rest) = '\n' :: ']' :: rest from by
      simp [dumpItemsTail]]
    rw [parseArrTail_succ, skipWs_true _ (by decide), skipWs_false _ (by decide)]
    simp only [List.map_nil]
    rfl
  | cons r rs ih =>
    intro f rest hf
    obtain ⟨f₁, rfl⟩ : ∃ f₁, f = f₁ + 1 := ⟨f - 1, by omega⟩
    rw [show dumpItemsTail (r :: rs) ++ ('\n' :: ']' :: rest)
        = ',' :: '\n' :: ' ' :: ' '
          :: (dumpRecObj r ++ (dumpItemsTail rs ++ ('\n' :: ']' :: rest))) from by
      simp [dumpItemsTail, List.append_assoc]]
    rw [parseArrTail_succ, skipWs_false ',' (by decide)]
    have h2 : ¬ (',' = ']') := by decide
    simp only [h2, ite_false, if_false, if_pos rfl]
    rw [parseValue_ws _ _ (by decide), parseValue_ws _ _ (by decide),
      parseValue_ws _ _ (by decide)]
    obtain ⟨g, rfl⟩ : ∃ g, f₁ = g + 5 := ⟨f₁ - 5, by omega⟩
    rw [parseValue_dumpRecObj g r (dumpItemsTail rs ++ ('\n' :: ']' :: rest))]
    have hih := ih (g + 5) rest (by simp at hf; omega)
    simp [hih]

/-- Parsing the full serialized array, given enough fuel. -/
theorem parseValue_dumpRecords (rs : List Rec) (f : Nat) (rest : List Char)
    (hf : rs.length + 7 ≤ f) :
    parseValue f (dumpRecords rs ++ rest) = some (Json.arr (rs.map recToJson), rest) := by
  obtain ⟨f₁, rfl⟩ : ∃ f₁, f = f₁ + 1 := ⟨f - 1, by omega⟩
  cases rs with
  | nil =>
    rw [show dumpRecords [] ++ rest = '[' :: ']' :: rest from by simp [dumpRecords]]
    rw [parseValue_succ, skipWs_false '[' (by decide)]
    have h1 : ¬ ('[' = '"') := by decide
    simp only [h1, ite_false, if_false, if_pos rfl]
    rw [skipWs_false ']' (by decide)]
    simp
  | cons r rs =>
    rw [show dumpRecords (r :: rs) ++ rest
        = '[' :: '\n' :: ' ' :: ' '
          :: (dumpRecObj r ++ (dumpItemsTail rs ++ ('\n' :: ']' :: rest))) from by
      simp [dumpRecords, List.append_assoc]]
    rw [parseValue_succ, skipWs_false '[' (by decide)]
    have h1 : ¬ ('[' = '"') := by decide
    simp only [h1, ite_false, if_false, if_pos rfl]
    rw [skipWs_true _ (by decide), skipWs_true _ (by decide), skipWs_true _ (by decide)]
    have hobjshape : dumpRecObj r ++ (dumpItemsTail rs ++ ('\n' :: ']' :: rest))
        = lbrace :: (objMember kUrl (dumpString r.url.data)
            ++ (',' :: (objMember kDepth (dumpInt r.depth)
              ++ (',' :: (objMember kTitle (dumpString r.title.data)
                ++ ('\n' :: ' ' :: ' ' :: rbrace
                  :: (dumpItemsTail rs ++ ('\n' :: ']' :: rest)))))))) := by
      simp [dumpRecObj, List.append_assoc]
    rw [hobjshape, skipWs_false lbrace (by decide)]
    have h2 : ¬ (lbrace = ']') := by decide
    simp only [h2, ite_false, if_false]
    rw [← hobjshape]
    obtain ⟨g, rfl⟩ : ∃ g, f₁ = g + 5 := ⟨f₁ - 5, by omega⟩
    rw [parseValue_dumpRecObj g r (dumpItemsTail rs ++ ('\n' :: ']' :: rest))]
    have htail := parseArrTail_dumpItemsTail rs (g + 5) rest (by simp at hf; omega)
    simp [htail]

/-- Each serialized item block is at least as long as one character per
item. -/
theorem dumpItemsTail_length_ge (rs : List Rec) :
    rs.length ≤ (dumpItemsTail rs).length := by
  induction rs with
  | nil => simp [dumpItemsTail]
  | cons r rs ih =>
    simp only [dumpItemsTail, List.length_cons, List.length_append]
    omega

/-- The serialized array of a nonempty list is long enough to provide the
fuel the parser needs. -/
theorem dumpRecords_length_ge (r : Rec) (rs : List Rec) :
    (r :: rs : List Rec).length + 7 ≤ (dumpRecords (r :: rs)).length + 1 := by
  have h1 := dumpItemsTail_length_ge rs
  have h2 : 1 ≤ (dumpRecObj r).length := by
    simp [dumpRecObj]
  simp only [dumpRecords, List.length_cons, List.length_append] at *
  omega

/-- The save and load round trip: the file content written by save_results
parses back to exactly the JSON array of the saved records. -/
theorem jsonLoad_dumpRecords (rs : List Rec) :
    jsonLoad (dumpRecords rs) = some (Json.arr (rs.map recToJson)) := by
  cases rs with
  | nil => rfl
  | cons r rs =>
    unfold jsonLoad
    have hparse := parseValue_dumpRecords (r :: rs) ((dumpRecords (r :: rs)).length + 1)
      [] (dumpRecords_length_ge r rs)
    rw [show dumpRecords (r :: rs) ++ ([] : List Char) = dumpRecords (r :: rs) from by
      simp] at hparse
    rw [hparse]
    simp [skipWs]

/-- The JSON image of a record determines the record. -/
theorem recToJson_injective : Function.Injective recToJson := by
  intro a b hab
  obtain ⟨ua, da, ta⟩ := a
  obtain ⟨ub, db, tb⟩ := b
  simp only [recToJson, Json.obj.injEq, List.cons.injEq, Prod.mk.injEq,
    Json.str.injEq, Json.int.injEq] at hab
  obtain ⟨⟨_, hurl⟩, ⟨_, hdepth⟩, ⟨_, htitle⟩, _⟩ := hab
  have h1 : ua = ub := by
    calc ua = ⟨ua.data⟩ := rfl
    _ = ⟨ub.data⟩ := by rw [hurl]
    _ = ub := rfl
  have h3 : ta = tb := by
    calc ta = ⟨ta.data⟩ := rfl
    _ = ⟨tb.data⟩ := by rw [htitle]
    _ = tb := rfl
  simp [h1, hdepth, h3]

/-- Claim C2: the file content written by save_results parses back, through
the json.load model, to exactly the JSON array of the saved records, and
the JSON image determines the record list, so the loaded list equals the
saved one. -/
theorem c2_save_load_roundtrip (rs : List Rec) :
    jsonLoad (saveResultsContent rs).data = some (Json.arr (rs.map recToJson)) ∧
    ∀ rs2 : List Rec, rs2.map recToJson = rs.map recToJson → rs2 = rs := by
  constructor
  · exact jsonLoad_dumpRecords rs
  · intro rs2 h
    exact List.map_injective_iff.mpr recToJson_injective h

/-- Witness for claim C2 at a concrete record list with escapes, a negative
depth and a non ascii character. -/
theorem c2_save_load_roundtrip_witness :
    jsonLoad (saveResultsContent
        [⟨"https://a/b", 1, "T\"x\né"⟩, ⟨"", -12, "w\\"⟩]).data
      = some (Json.arr
          (([⟨"https://a/b", 1, "T\"x\né"⟩, ⟨"", -12, "w\\"⟩] : List Rec).map recToJson)) ∧
    ([⟨"https://a/b", 1, "T\"x\né"⟩, ⟨"", -12, "w\\"⟩] : List Rec)
      = [⟨"https://a/b", 1, "T\"x\né"⟩, ⟨"", -12, "w\\"⟩] :=
  ⟨(c2_save_load_roundtrip [⟨"https://a/b", 1, "T\"x\né"⟩, ⟨"", -12, "w\\"⟩]).1,
   (c2_save_load_roundtrip [⟨"https://a/b", 1, "T\"x\né"⟩, ⟨"", -12, "w\\"⟩]).2
     [⟨"https://a/b", 1, "T\"x\né"⟩, ⟨"", -12, "w\\"⟩] rfl⟩

/-- Claim C4: run_crawler produces one record per crawl result with exactly
the three fields and the two defaults, and the persisted file content is
the JSON array of objects with exactly the keys url, depth and title, in
crawl result order. -/
theorem c4_record_shape_and_array (crs : List CrawlResult) :
    (processCrawlResults crs).length = crs.length ∧
    (∀ q ∈ processCrawlResults crs, ∃ c ∈ crs,
        q = ⟨c.url, c.metaDepth.getD 0, c.metaTitle.getD ""⟩) ∧
    jsonLoad (saveResultsContent (processCrawlResults crs)).data
      = some (Json.arr (crs.map (fun c =>
          Json.obj
            [(kUrl, Json.str c.url.data),
             (kDepth, Json.int (c.metaDepth.getD 0)),
             (kTitle, Json.str ((c.metaTitle.getD "").data))]))) := by
  refine ⟨by simp [processCrawlResults], ?_, ?_⟩
  · intro q hq
    obtain ⟨c, hc, hfc⟩ := List.mem_map.mp hq
    exact ⟨c, hc, hfc.symm⟩
  · rw [show (saveResultsContent (processCrawlResults crs)).data
        = dumpRecords (processCrawlResults crs) from rfl, jsonLoad_dumpRecords]
    simp [processCrawlResults, recToJson, List.map_map, Function.comp]

/-- Witness for claim C4 at a concrete crawl result with and without
metadata entries. -/
theorem c4_record_shape_and_array_witness :
    (processCrawlResults [⟨"https://a", some 2, some "t"⟩, ⟨"https://b", none, none⟩]).length = 2 ∧
    (∃ c ∈ [(⟨"https://a", some 2, some "t"⟩ : CrawlResult), ⟨"https://b", none, none⟩],
      (⟨"https://a", 2, "t"⟩ : Rec) = ⟨c.url, c.metaDepth.getD 0, c.metaTitle.getD ""⟩) :=
  ⟨(c4_record_shape_and_array
      [⟨"https://a", some 2, some "t"⟩, ⟨"https://b", none, none⟩]).1,
   (c4_record_shape_and_array
      [⟨"https://a", some 2, some "t"⟩, ⟨"https://b", none, none⟩]).2.1
     ⟨"https://a", 2, "t"⟩ (by decide)⟩
